import Mathlib

/-!
Verification development for the `que` job-queue engine (package `que`).
The repository ships only `doc.go` (the package documentation); the engine
itself (Job, Client, Worker, WorkerPool, Locker) is modelled here from the
specification, faithfully to its words, as a shallow embedding: timestamps
are naturals, the opaque byte payload is a list of bytes, and the backing
store is explicit state.
-/

namespace Que

/-- Modelled from the spec: the `Job` entity of §3 (the implementation's
`Job` struct is not under `src/`; only `doc.go` is). `type_` stands for the
Go field `Type`; timestamps are naturals; `Args` is an opaque byte list. -/
structure Job where
  id : Nat
  queue : String
  priority : Int
  runAt : Nat
  type_ : String
  args : List Nat
  errorCount : Nat
  lastError : Option String
deriving DecidableEq

/-- Modelled from the spec: the claim ordering of §3/§4.2 — `Priority`
ascending, ties broken by `RunAt` ascending, then `ID` ascending. -/
def jobLE (a b : Job) : Prop :=
  a.priority < b.priority ∨
    (a.priority = b.priority ∧
      (a.runAt < b.runAt ∨ (a.runAt = b.runAt ∧ a.id ≤ b.id)))

instance : DecidableRel jobLE := fun a b => by
  unfold jobLE; infer_instance

instance : IsTotal Job jobLE := ⟨by intro a b; unfold jobLE; omega⟩

instance : IsTrans Job jobLE := ⟨by intro a b c; unfold jobLE; omega⟩

theorem jobLE_refl (a : Job) : jobLE a a := by unfold jobLE; omega

/-- Modelled from the spec: the store state visible to the locking protocol —
the job table, the advisory locks currently held (as the list of locked job
IDs, a lock being held by some connection), and the next ID the store will
assign on insert. -/
structure Store where
  jobs : List Job
  locks : List Nat
  nextId : Nat
deriving DecidableEq

/-- Modelled from the spec (§4.2): walk the candidate rows in order,
skip a row whose advisory lock is unavailable, and return the first row
whose lock can be taken. -/
def findUnlocked (locks : List Nat) : List Job → Option Job
  | [] => none
  | j :: rest => if j.id ∈ locks then findUnlocked locks rest else some j

/-- Modelled from the spec (§4.2 `Claim`): atomically find the next eligible
Job (`RunAt <= now`) ordered by (Priority asc, RunAt asc, ID asc), skip rows
whose advisory lock is held by another connection, lock and return the first
available row. `none` is NotFound — queue empty, not an error. -/
def Claim (s : Store) (now : Nat) : Option (Job × Store) :=
  match findUnlocked s.locks
      (List.insertionSort jobLE (s.jobs.filter (fun j => j.runAt ≤ now))) with
  | none => none
  | some j => some (j, { s with locks := j.id :: s.locks })

theorem findUnlocked_mem {locks : List Nat} {l : List Job} {j : Job}
    (h : findUnlocked locks l = some j) : j ∈ l := by
  induction l with
  | nil => simp [findUnlocked] at h
  | cons x rest ih =>
    by_cases hx : x.id ∈ locks
    · simp [findUnlocked, hx] at h
      exact List.mem_cons_of_mem _ (ih h)
    · simp [findUnlocked, hx] at h
      simp [h]

theorem findUnlocked_not_locked {locks : List Nat} {l : List Job} {j : Job}
    (h : findUnlocked locks l = some j) : j.id ∉ locks := by
  induction l with
  | nil => simp [findUnlocked] at h
  | cons x rest ih =>
    by_cases hx : x.id ∈ locks
    · simp [findUnlocked, hx] at h
      exact ih h
    · simp [findUnlocked, hx] at h
      rw [← h]; exact hx

theorem findUnlocked_min {locks : List Nat} {l : List Job} {j : Job}
    (hs : l.Sorted jobLE) (h : findUnlocked locks l = some j) :
    ∀ k ∈ l, k.id ∉ locks → jobLE j k := by
  induction l with
  | nil => simp [findUnlocked] at h
  | cons x rest ih =>
    rw [List.sorted_cons] at hs
    by_cases hx : x.id ∈ locks
    · simp [findUnlocked, hx] at h
      intro k hk hkl
      rcases List.mem_cons.mp hk with rfl | hk'
      · exact absurd hx hkl
      · exact ih hs.2 h k hk' hkl
    · simp [findUnlocked, hx] at h
      intro k hk _
      rcases List.mem_cons.mp hk with rfl | hk'
      · rw [h]; exact jobLE_refl _
      · rw [← h]; exact hs.1 k hk'

theorem findUnlocked_eq_none {locks : List Nat} {l : List Job} :
    findUnlocked locks l = none ↔ ∀ k ∈ l, k.id ∈ locks := by
  induction l with
  | nil => simp [findUnlocked]
  | cons x rest ih =>
    by_cases hx : x.id ∈ locks
    · simp [findUnlocked, hx, ih]
    · simp [findUnlocked, hx]

/-- Membership in the sorted eligible candidate list. -/
theorem mem_candidates {s : Store} {now : Nat} {j : Job} :
    j ∈ List.insertionSort jobLE (s.jobs.filter (fun j => j.runAt ≤ now)) ↔
      j ∈ s.jobs ∧ j.runAt ≤ now := by
  rw [(List.perm_insertionSort jobLE _).mem_iff, List.mem_filter]
  simp

/-- C2: `Claim` returns the first Job, in (Priority asc, RunAt asc, ID asc)
order, among Jobs with `RunAt <= now` whose advisory lock is not currently
held, and acquires that Job's advisory lock; if no such Job exists it
returns NotFound (`none`) without error. -/
theorem Claim_spec (s : Store) (now : Nat) :
    (∀ j s', Claim s now = some (j, s') →
      j ∈ s.jobs ∧ j.runAt ≤ now ∧ j.id ∉ s.locks ∧
      s'.jobs = s.jobs ∧ s'.locks = j.id :: s.locks ∧
      ∀ k ∈ s.jobs, k.runAt ≤ now → k.id ∉ s.locks → jobLE j k) ∧
    (Claim s now = none ↔ ∀ k ∈ s.jobs, k.runAt ≤ now → k.id ∈ s.locks) := by
  constructor
  · intro j s' h
    unfold Claim at h
    cases hf : findUnlocked s.locks
        (List.insertionSort jobLE (s.jobs.filter (fun j => j.runAt ≤ now))) with
    | none => rw [hf] at h; simp at h
    | some j0 =>
      rw [hf] at h
      simp at h
      obtain ⟨rfl, rfl⟩ := h
      have hm := mem_candidates.mp (findUnlocked_mem hf)
      refine ⟨hm.1, hm.2, findUnlocked_not_locked hf, rfl, rfl, ?_⟩
      intro k hk hkn hkl
      exact findUnlocked_min (List.sorted_insertionSort jobLE _) hf k
        (mem_candidates.mpr ⟨hk, hkn⟩) hkl
  · unfold Claim
    cases hf : findUnlocked s.locks
        (List.insertionSort jobLE (s.jobs.filter (fun j => j.runAt ≤ now))) with
    | none =>
      simp only []
      constructor
      · intro _ k hk hkn
        exact findUnlocked_eq_none.mp hf k (mem_candidates.mpr ⟨hk, hkn⟩)
      · intro _; trivial
    | some j0 =>
      simp only []
      constructor
      · intro h; simp at h
      · intro hall
        have := findUnlocked_not_locked hf
        have hm := mem_candidates.mp (findUnlocked_mem hf)
        exact absurd (hall j0 hm.1 hm.2) this

/-- Witness for C2 on a concrete store: two eligible jobs, the lower
priority one is returned and locked. -/
def jA : Job := ⟨1, "", 0, 5, "A", [], 0, none⟩

def jB : Job := ⟨2, "", 5, 0, "B", [], 0, none⟩

def sAB : Store := ⟨[jB, jA], [], 3⟩

theorem Claim_spec_witness :
    jA ∈ sAB.jobs ∧ jA.runAt ≤ 10 ∧ jA.id ∉ sAB.locks ∧
      ({ sAB with locks := [jA.id] } : Store).locks = jA.id :: sAB.locks ∧
      jobLE jA jB := by
  obtain ⟨h1, h2, h3, _, h5, h6⟩ :=
    (Claim_spec sAB 10).1 jA { sAB with locks := [jA.id] } (by decide)
  exact ⟨h1, h2, h3, h5, h6 jB (by decide) (by decide) (by decide)⟩

/-- Modelled from the spec (§8, §5): advisory-lock acquisition is atomic in
the store, so any interleaving of concurrent `Claim` calls with no
intervening release is a sequence of atomic claim operations; `claimSeq`
runs up to `n` of them against the same store state. -/
def claimSeq (now : Nat) : Nat → Store → List Job × Store
  | 0, s => ([], s)
  | n + 1, s =>
    match Claim s now with
    | none => ([], s)
    | some (j, s') =>
      let p := claimSeq now n s'
      (j :: p.1, p.2)

theorem Claim_fresh_lock {s : Store} {now : Nat} {j : Job} {s' : Store}
    (h : Claim s now = some (j, s')) :
    j.id ∉ s.locks ∧ s'.locks = j.id :: s.locks := by
  unfold Claim at h
  cases hf : findUnlocked s.locks
      (List.insertionSort jobLE (s.jobs.filter (fun j => j.runAt ≤ now))) with
  | none => rw [hf] at h; simp at h
  | some j0 =>
    rw [hf] at h
    simp at h
    obtain ⟨rfl, rfl⟩ := h
    exact ⟨findUnlocked_not_locked hf, rfl⟩

theorem claimSeq_locks_mono (now n : Nat) (s : Store) :
    ∀ i ∈ s.locks, i ∈ (claimSeq now n s).2.locks := by
  induction n generalizing s with
  | zero => intro i hi; simpa [claimSeq] using hi
  | succ n ih =>
    intro i hi
    cases hc : Claim s now with
    | none => simpa [claimSeq, hc] using hi
    | some p =>
      obtain ⟨j, s'⟩ := p
      have hl := (Claim_fresh_lock hc).2
      simp only [claimSeq, hc]
      exact ih s' i (by rw [hl]; exact List.mem_cons_of_mem _ hi)

theorem claimSeq_ids (now n : Nat) (s : Store) :
    (∀ j ∈ (claimSeq now n s).1, j.id ∉ s.locks) ∧
    (∀ j ∈ (claimSeq now n s).1, j.id ∈ (claimSeq now n s).2.locks) ∧
    ((claimSeq now n s).1.map Job.id).Nodup := by
  induction n generalizing s with
  | zero => simp [claimSeq]
  | succ n ih =>
    cases hc : Claim s now with
    | none => simp [claimSeq, hc]
    | some p =>
      obtain ⟨j, s'⟩ := p
      obtain ⟨hfresh, hl⟩ := Claim_fresh_lock hc
      obtain ⟨ih1, ih2, ih3⟩ := ih s'
      refine ⟨?_, ?_, ?_⟩
      · intro k hk
        simp only [claimSeq, hc, List.mem_cons] at hk
        rcases hk with rfl | hk'
        · exact hfresh
        · intro hkl
          exact ih1 k hk' (by rw [hl]; exact List.mem_cons_of_mem _ hkl)
      · intro k hk
        simp only [claimSeq, hc, List.mem_cons] at hk
        simp only [claimSeq, hc]
        rcases hk with rfl | hk'
        · exact claimSeq_locks_mono now n s' k.id (by rw [hl]; exact List.mem_cons_self _ _)
        · exact ih2 k hk'
      · simp only [claimSeq, hc, List.map_cons, List.nodup_cons]
        refine ⟨?_, ih3⟩
        intro hmem
        obtain ⟨k, hk, hkid⟩ := List.mem_map.mp hmem
        have := ih1 k hk
        rw [hl] at this
        exact this (by rw [hkid]; exact List.mem_cons_self _ _)

/-- C1: no two claim calls return the same Job ID while all the acquired
advisory locks are still held — every maximal interleaving of concurrent
`Claim` calls against the same store state (with no intervening release)
returns pairwise-distinct Job IDs, each of which is held as a lock in the
resulting store state. -/
theorem Claim_no_double_claim (s : Store) (now n : Nat) :
    ((claimSeq now n s).1.map Job.id).Nodup ∧
    ∀ j ∈ (claimSeq now n s).1, j.id ∈ (claimSeq now n s).2.locks :=
  ⟨(claimSeq_ids now n s).2.2, (claimSeq_ids now n s).2.1⟩

/-- Modelled from the spec (§4.3 step 4): the backoff delay before a failed
Job becomes eligible again, a monotonically increasing function of
`ErrorCount` — the spec's example capped exponential, with a base delay of
one second and a maximum delay of 3600 seconds. -/
def backoff (errorCount : Nat) : Nat := min (2 ^ errorCount) 3600

theorem backoff_pos (n : Nat) : 1 ≤ backoff n := by
  unfold backoff
  exact le_min Nat.one_le_two_pow (by norm_num)

theorem backoff_mono : Monotone backoff := by
  intro a b hab
  unfold backoff
  exact min_le_min (Nat.pow_le_pow_right (by norm_num) hab) le_rfl

/-- Modelled from the spec (§4.3 step 4, error outcome): increment
`ErrorCount`, store the error text as `LastError`, set
`RunAt = now + backoff(ErrorCount)` (the incremented count). -/
def resolveError (j : Job) (errText : String) (now : Nat) : Job :=
  { j with
    errorCount := j.errorCount + 1
    lastError := some errText
    runAt := now + backoff (j.errorCount + 1) }

/-- Modelled from the spec (§8): a handler failing at each of the claim
instants `ts` in turn, each failure resolved by the retry path. -/
def runFailures (errText : String) : List Nat → Job → Job
  | [], j => j
  | t :: ts, j => runFailures errText ts (resolveError j errText t)

/-- Modelled from the spec (§3): a Job is claimed — hence can fail — only at
an instant `t` with `RunAt <= t`; `validTimes` says the claim instants `ts`
respect eligibility throughout the failure sequence. -/
def validTimes (errText : String) : Job → List Nat → Prop
  | _, [] => True
  | j, t :: ts => j.runAt ≤ t ∧ validTimes errText (resolveError j errText t) ts

theorem runFailures_errorCount (errText : String) (ts : List Nat) (j : Job) :
    (runFailures errText ts j).errorCount = j.errorCount + ts.length := by
  induction ts generalizing j with
  | nil => simp [runFailures]
  | cons t ts ih =>
    simp only [runFailures, ih, resolveError, List.length_cons]
    omega

theorem runFailures_runAt_lt (errText : String) (ts : List Nat) (j : Job)
    (h : validTimes errText j ts) (hne : ts ≠ []) :
    j.runAt < (runFailures errText ts j).runAt := by
  induction ts generalizing j with
  | nil => exact absurd rfl hne
  | cons t ts ih =>
    obtain ⟨h1, h2⟩ := h
    have hstep : j.runAt < (resolveError j errText t).runAt := by
      simp only [resolveError]
      have := backoff_pos (j.errorCount + 1)
      omega
    cases ts with
    | nil => simpa [runFailures] using hstep
    | cons t' ts' =>
      exact lt_trans hstep (ih (resolveError j errText t) h2 (by simp))

theorem runFailures_lastError (errText : String) (ts : List Nat) (j : Job)
    (hne : ts ≠ []) :
    (runFailures errText ts j).lastError = some errText := by
  induction ts generalizing j with
  | nil => exact absurd rfl hne
  | cons t ts ih =>
    cases ts with
    | nil => simp [runFailures, resolveError]
    | cons t' ts' => exact ih (resolveError j errText t) (by simp)

/-- C3: a handler error resolves the Job by incrementing `ErrorCount` by
one, storing the error text as `LastError`, and setting
`RunAt = now + backoff(ErrorCount)` with `backoff` monotonically
increasing; a handler failing `N` consecutive times (at eligible claim
instants) leaves `ErrorCount` increased by `N` and a `RunAt` strictly
increasing with `N`. -/
theorem retry_backoff_spec (j : Job) (errText : String) (ts : List Nat)
    (h : validTimes errText j ts) :
    Monotone backoff ∧
    (∀ k : Job, ∀ now : Nat,
      (resolveError k errText now).errorCount = k.errorCount + 1 ∧
      (resolveError k errText now).lastError = some errText ∧
      (resolveError k errText now).runAt = now + backoff (k.errorCount + 1)) ∧
    (runFailures errText ts j).errorCount = j.errorCount + ts.length ∧
    (ts ≠ [] →
      j.runAt < (runFailures errText ts j).runAt ∧
      (runFailures errText ts j).lastError = some errText) := by
  refine ⟨backoff_mono, ?_, runFailures_errorCount errText ts j, ?_⟩
  · intro k now
    exact ⟨rfl, rfl, rfl⟩
  · intro hne
    exact ⟨runFailures_runAt_lt errText ts j h hne,
      runFailures_lastError errText ts j hne⟩

/-- Witness job for C3. -/
def jC : Job := ⟨7, "", 0, 0, "T", [], 0, none⟩

theorem retry_backoff_spec_witness :
    (runFailures "boom" [0, 10000, 20000] jC).errorCount =
      jC.errorCount + 3 ∧
    jC.runAt < (runFailures "boom" [0, 10000, 20000] jC).runAt ∧
    (runFailures "boom" [0, 10000, 20000] jC).lastError = some "boom" ∧
    (resolveError jC "boom" 0).errorCount = jC.errorCount + 1 ∧
    (resolveError jC "boom" 0).lastError = some "boom" := by
  obtain ⟨hmono, hstep, hcount, hlast⟩ :=
    retry_backoff_spec jC "boom" [0, 10000, 20000]
      (by simp [validTimes, resolveError, backoff, jC])
  obtain ⟨hlt, hle⟩ := hlast (by simp)
  exact ⟨hcount, hlt, hle, (hstep jC 0).1, (hstep jC 0).2.1⟩

/-- Modelled from the spec (§6) and doc.go: the in-process mutable handle a
handler receives (`*que.Job`) — the Job's fields plus the pending explicit
reschedule request that `Reschedule` records. -/
structure JobHandle where
  job : Job
  rescheduleAt : Option Nat
deriving DecidableEq

/-- Modelled from doc.go (`j.Reschedule(...)` in `rescheduleExample`):
record an explicit reschedule request on the mutable handle — a side
channel, not a structured return value. -/
def JobHandle.Reschedule (h : JobHandle) (t : Nat) : JobHandle :=
  { h with rescheduleAt := some t }

/-- Modelled from the spec (§6 handler contract): a handler takes the
mutable Job handle and returns the possibly-mutated handle together with
`none` (success) or `some errText` (error). -/
abbrev Handler := JobHandle → JobHandle × Option String

/-- Modelled from doc.go (`que.WorkMap`): job-type string → handler. -/
abbrev WorkMap := List (String × Handler)

def lookupHandler (wm : WorkMap) (t : String) : Option Handler :=
  (List.find? (fun p => p.1 = t) wm).map Prod.snd

def unknownTypeError (t : String) : String := "unknown job type: " ++ t

/-- Modelled from the spec (§6 `UpdateForRetry`): the per-row retry update —
the matching row goes through `resolveError`, every other row is
untouched. -/
def retryRow (jobId : Nat) (errText : String) (now : Nat) (k : Job) : Job :=
  if k.id = jobId then resolveError k errText now else k

def updateForRetry (s : Store) (jobId : Nat) (errText : String)
    (now : Nat) : Store :=
  { s with jobs := s.jobs.map (retryRow jobId errText now) }

/-- Modelled from the spec (§6 `UpdateForReschedule`): the per-row explicit
reschedule update — the matching row gets the new `Args` and new `RunAt`,
every other column and every other row is untouched. -/
def rescheduleRow (jobId : Nat) (newArgs : List Nat) (newRunAt : Nat)
    (k : Job) : Job :=
  if k.id = jobId then { k with args := newArgs, runAt := newRunAt } else k

def updateForReschedule (s : Store) (jobId : Nat) (newArgs : List Nat)
    (newRunAt : Nat) : Store :=
  { s with jobs := s.jobs.map (rescheduleRow jobId newArgs newRunAt) }

/-- Modelled from the spec (§6 `Delete`): remove the row on success. -/
def deleteJob (s : Store) (jobId : Nat) : Store :=
  { s with jobs := s.jobs.filter (fun k => k.id ≠ jobId) }

/-- Modelled from the spec (§4.3 step 4) and doc.go: resolve one handler
outcome — an error goes through the retry path; `nil` with a pending
reschedule request updates `Args`/`RunAt`; plain `nil` is success and
deletes the Job from the queue. -/
def resolve (s : Store) (h : JobHandle) (res : Option String)
    (now : Nat) : Store :=
  match res with
  | some errText => updateForRetry s h.job.id errText now
  | none =>
    match h.rescheduleAt with
    | some t => updateForReschedule s h.job.id h.job.args t
    | none => deleteJob s h.job.id

/-- Modelled from the spec (§4.3 steps 2-4): one claimed Job worked by a
Worker — look up `Job.Type` in the WorkMap; a miss resolves through the
retry path with an unknown-job-type error, invoking no handler; a hit
invokes the handler on the mutable handle and resolves its outcome. -/
def workOne (wm : WorkMap) (s : Store) (j : Job) (now : Nat) : Store :=
  match lookupHandler wm j.type_ with
  | none => updateForRetry s j.id (unknownTypeError j.type_) now
  | some f =>
    let r := f ⟨j, none⟩
    resolve s r.1 r.2 now

/-- C5: an explicit reschedule updates only the Job's `Args` and `RunAt`
in the store — `ErrorCount` and `LastError` (and `ID`, `Type`, `Queue`,
`Priority`) are unchanged on the matching row, other rows are untouched,
and the lock table is untouched. -/
theorem reschedule_frame (s : Store) (jobId newRunAt : Nat)
    (newArgs : List Nat) (k : Job) :
    (updateForReschedule s jobId newArgs newRunAt).jobs =
      s.jobs.map (rescheduleRow jobId newArgs newRunAt) ∧
    (updateForReschedule s jobId newArgs newRunAt).locks = s.locks ∧
    (rescheduleRow jobId newArgs newRunAt k).errorCount = k.errorCount ∧
    (rescheduleRow jobId newArgs newRunAt k).lastError = k.lastError ∧
    (rescheduleRow jobId newArgs newRunAt k).id = k.id ∧
    (rescheduleRow jobId newArgs newRunAt k).type_ = k.type_ ∧
    (rescheduleRow jobId newArgs newRunAt k).queue = k.queue ∧
    (rescheduleRow jobId newArgs newRunAt k).priority = k.priority ∧
    (k.id = jobId →
      (rescheduleRow jobId newArgs newRunAt k).args = newArgs ∧
      (rescheduleRow jobId newArgs newRunAt k).runAt = newRunAt) ∧
    (k.id ≠ jobId → rescheduleRow jobId newArgs newRunAt k = k) := by
  by_cases hk : k.id = jobId <;>
    simp [updateForReschedule, rescheduleRow, hk]

/-- Witness row for C5 and C9. -/
def jR : Job := ⟨4, "", 0, 50, "R", [1, 2], 2, some "old"⟩

/-- Witness store for C5, C6 and C9. -/
def sR : Store := ⟨[jR], [], 5⟩

theorem reschedule_frame_witness :
    (updateForReschedule sR 4 [9] 60).locks = sR.locks ∧
    (rescheduleRow 4 [9] 60 jR).errorCount = jR.errorCount ∧
    (rescheduleRow 4 [9] 60 jR).lastError = jR.lastError ∧
    (rescheduleRow 4 [9] 60 jR).priority = jR.priority ∧
    (rescheduleRow 4 [9] 60 jR).args = [9] ∧
    (rescheduleRow 4 [9] 60 jR).runAt = 60 := by
  obtain ⟨h1, h2, h3, h4, h5, h6, h7, h8, h9, h10⟩ :=
    reschedule_frame sR 4 60 [9] jR
  exact ⟨h2, h3, h4, h8, (h9 rfl).1, (h9 rfl).2⟩

/-- C6: when a claimed Job's `Type` has no WorkMap entry, no handler is
invoked and the Job goes through the same retry/backoff path as a handler
error: the store keeps the same number of rows (nothing deleted or
dropped), the matching row gets `ErrorCount + 1`, the unknown-type text as
`LastError` and a backed-off `RunAt`, and every other row is untouched —
and `workOne` is total, so the lookup miss cannot crash the Worker. -/
theorem unknown_type_spec (wm : WorkMap) (s : Store) (j : Job) (now : Nat)
    (hmiss : lookupHandler wm j.type_ = none) :
    workOne wm s j now =
      updateForRetry s j.id (unknownTypeError j.type_) now ∧
    workOne wm s j now =
      resolve s ⟨j, none⟩ (some (unknownTypeError j.type_)) now ∧
    (workOne wm s j now).jobs.length = s.jobs.length ∧
    (∀ k ∈ s.jobs, k.id = j.id →
      resolveError k (unknownTypeError j.type_) now ∈ (workOne wm s j now).jobs) ∧
    (∀ k ∈ s.jobs, k.id ≠ j.id → k ∈ (workOne wm s j now).jobs) := by
  have hw : workOne wm s j now =
      updateForRetry s j.id (unknownTypeError j.type_) now := by
    unfold workOne
    rw [hmiss]
  refine ⟨hw, hw.trans rfl, ?_, ?_, ?_⟩
  · rw [hw]; simp [updateForRetry]
  · intro k hk hkid
    rw [hw]
    simp only [updateForRetry]
    have : retryRow j.id (unknownTypeError j.type_) now k =
        resolveError k (unknownTypeError j.type_) now := by
      simp [retryRow, hkid]
    exact this ▸ List.mem_map_of_mem _ hk
  · intro k hk hkid
    rw [hw]
    simp only [updateForRetry]
    have : retryRow j.id (unknownTypeError j.type_) now k = k := by
      simp [retryRow, hkid]
    exact this ▸ List.mem_map_of_mem _ hk

/-- Witness handler and WorkMap for C6: one entry, and a Job whose type is
not in the map. -/
def noopHandler : Handler := fun h => (h, none)

def wmW : WorkMap := [("PrintName", noopHandler)]

def jMystery : Job := ⟨4, "", 0, 50, "Mystery", [1, 2], 2, some "old"⟩

theorem unknown_type_spec_witness :
    workOne wmW sR jMystery 70 =
      updateForRetry sR jMystery.id (unknownTypeError jMystery.type_) 70 ∧
    (workOne wmW sR jMystery 70).jobs.length = sR.jobs.length ∧
    resolveError jR (unknownTypeError jMystery.type_) 70 ∈
      (workOne wmW sR jMystery 70).jobs := by
  obtain ⟨h1, h2, h3, h4, h5⟩ := unknown_type_spec wmW sR jMystery 70 (by rfl)
  exact ⟨h1, h3, h4 jR (by decide) (by decide)⟩

/-- C9: the reschedule convention is a mutable-handle side channel —
`Reschedule` only records the request on the handle (the Job fields,
including the `Args` the handler mutated, stay as the handler left them);
a handler that returns `nil` after calling `Reschedule` resolves to the
`Args`/`RunAt` update, while returning `nil` without having called
`Reschedule` resolves as success and the Worker deletes the Job from the
queue. -/
theorem reschedule_side_channel (s : Store) (h : JobHandle) (t now : Nat) :
    ((h.Reschedule t).job = h.job ∧
      (h.Reschedule t).rescheduleAt = some t) ∧
    resolve s (h.Reschedule t) none now =
      updateForReschedule s h.job.id h.job.args t ∧
    (∀ k ∈ s.jobs, k.id = h.job.id →
      rescheduleRow h.job.id h.job.args t k ∈
        (resolve s (h.Reschedule t) none now).jobs) ∧
    (h.rescheduleAt = none →
      resolve s h none now = deleteJob s h.job.id ∧
      h.job.id ∉ (resolve s h none now).jobs.map Job.id) := by
  refine ⟨⟨rfl, rfl⟩, rfl, ?_, ?_⟩
  · intro k hk _
    simp only [resolve, JobHandle.Reschedule, updateForReschedule]
    exact List.mem_map_of_mem _ hk
  · intro hnone
    have hd : resolve s h none now = deleteJob s h.job.id := by
      simp [resolve, hnone]
    refine ⟨hd, ?_⟩
    rw [hd]
    simp [deleteJob, List.mem_map, List.mem_filter]

/-- Witness handle for C9. -/
def hR : JobHandle := ⟨jR, none⟩

theorem reschedule_side_channel_witness :
    (hR.Reschedule 90).job = hR.job ∧
    (hR.Reschedule 90).rescheduleAt = some 90 ∧
    resolve sR (hR.Reschedule 90) none 70 =
      updateForReschedule sR hR.job.id hR.job.args 90 ∧
    rescheduleRow hR.job.id hR.job.args 90 jR ∈
      (resolve sR (hR.Reschedule 90) none 70).jobs ∧
    resolve sR hR none 70 = deleteJob sR hR.job.id ∧
    hR.job.id ∉ (resolve sR hR none 70).jobs.map Job.id := by
  obtain ⟨⟨h1, h2⟩, h3, h4, h5⟩ := reschedule_side_channel sR hR 90 70
  obtain ⟨h6, h7⟩ := h5 rfl
  exact ⟨h1, h2, h3, h4 jR (by decide) (by decide), h6, h7⟩

/-- Modelled from the spec (§4.5): the documented default `Priority` used
when the enqueued Job leaves it unset (Que's documented default, 100). -/
def defaultPriority : Int := 100

def missingTypeError : String := "job type must be specified"

/-- Modelled from the spec (§4.5 `Client.Enqueue`) and doc.go: validate
that `Type` is non-empty (error returned synchronously, store untouched);
default `RunAt` to now and `Priority` to the documented default when unset
(the Go zero values); insert exactly one row with the store-assigned `ID`
and return that `ID`. -/
def Enqueue (s : Store) (now : Nat) (j : Job) : Store × Except String Nat :=
  if j.type_ = "" then (s, Except.error missingTypeError)
  else
    let row : Job :=
      { j with
        id := s.nextId
        runAt := if j.runAt = 0 then now else j.runAt
        priority := if j.priority = 0 then defaultPriority else j.priority }
    ({ jobs := s.jobs ++ [row], locks := s.locks, nextId := s.nextId + 1 },
      Except.ok s.nextId)

/-- C8: `Enqueue` with an empty `Type` returns a validation error
synchronously and leaves the store unchanged; with a non-empty `Type` it
defaults `RunAt` to now and `Priority` to the documented default when
unset, appends exactly one row (existing rows and locks untouched), and
returns the store-assigned `ID`, which is the new row's `ID`. -/
theorem Enqueue_spec (s : Store) (now : Nat) (j : Job) :
    (j.type_ = "" →
      Enqueue s now j = (s, Except.error missingTypeError)) ∧
    (j.type_ ≠ "" →
      (Enqueue s now j).2 = Except.ok s.nextId ∧
      ∃ row : Job,
        (Enqueue s now j).1.jobs = s.jobs ++ [row] ∧
        (Enqueue s now j).1.locks = s.locks ∧
        (Enqueue s now j).1.nextId = s.nextId + 1 ∧
        row.id = s.nextId ∧
        row.type_ = j.type_ ∧
        row.args = j.args ∧
        row.errorCount = j.errorCount ∧
        row.lastError = j.lastError ∧
        row.runAt = (if j.runAt = 0 then now else j.runAt) ∧
        row.priority =
          (if j.priority = 0 then defaultPriority else j.priority)) := by
  constructor
  · intro he
    simp [Enqueue, he]
  · intro hne
    refine ⟨by simp [Enqueue, hne], ?_⟩
    refine ⟨{ j with
        id := s.nextId
        runAt := if j.runAt = 0 then now else j.runAt
        priority := if j.priority = 0 then defaultPriority else j.priority },
      ?_, ?_, ?_, rfl, rfl, rfl, rfl, rfl, rfl, rfl⟩ <;>
      simp [Enqueue, hne]

/-- Witness job for C8: unset `RunAt` and `Priority`. -/
def jE : Job := ⟨0, "", 0, 0, "PrintName", [3], 0, none⟩

theorem Enqueue_spec_witness :
    Enqueue sAB 40 { jE with type_ := "" } =
      (sAB, Except.error missingTypeError) ∧
    (Enqueue sAB 40 jE).2 = Except.ok sAB.nextId := by
  refine ⟨(Enqueue_spec sAB 40 { jE with type_ := "" }).1 rfl, ?_⟩
  exact ((Enqueue_spec sAB 40 jE).2 (by decide)).1

/-- Job used in the C7 counterexample and the C7 witness. -/
def jBack : Job := ⟨3, "", 0, 100, "T", [], 0, none⟩

/-- C7 counterexample: the engine applies an explicit reschedule's
handler-supplied `RunAt` verbatim (§4.3 step 4 / §6 `UpdateForReschedule`),
so rescheduling the row with `RunAt = 100` to instant `5` moves `RunAt`
backward — the claim that every engine update, including explicit
reschedule with an arbitrary handler-supplied time, never moves `RunAt`
backward is false. -/
theorem runAt_backward_cex :
    (rescheduleRow jBack.id jBack.args 5 jBack).runAt < jBack.runAt := by
  decide

/-- C7 (amended): `RunAt` never moves backward under the engine's updates —
the retry-backoff update always moves the claimed row's `RunAt` forward
(claim eligibility gives `RunAt <= now`, and the backoff is positive), and
an explicit reschedule applies the handler-supplied time verbatim, so it
moves `RunAt` forward provided that time is no earlier than the row's
current `RunAt` (as in the reschedule example, which targets a future
instant); rows other than the updated one are never touched. -/
theorem runAt_forward (jobId now newRunAt : Nat) (newArgs : List Nat)
    (errText : String) (k : Job)
    (hretry : k.id = jobId → k.runAt ≤ now)
    (hres : k.id = jobId → k.runAt ≤ newRunAt) :
    k.runAt ≤ (retryRow jobId errText now k).runAt ∧
    k.runAt ≤ (rescheduleRow jobId newArgs newRunAt k).runAt := by
  constructor
  · by_cases hk : k.id = jobId
    · have h1 := hretry hk
      have h2 := backoff_pos (k.errorCount + 1)
      simp only [retryRow, hk, if_pos, resolveError]
      omega
    · simp [retryRow, hk]
  · by_cases hk : k.id = jobId
    · have h1 := hres hk
      simp only [rescheduleRow, hk, if_pos]
      exact h1
    · simp [rescheduleRow, hk]

theorem runAt_forward_witness :
    jBack.runAt ≤ (retryRow jBack.id "e" 150 jBack).runAt ∧
    jBack.runAt ≤ (rescheduleRow jBack.id [7] 400 jBack).runAt :=
  runAt_forward jBack.id 150 400 [7] "e" jBack (fun _ => by decide)
    (fun _ => by decide)

/-- Modelled from the spec (§4.4, §5) and doc.go (`workers.Shutdown()`):
the status of one Worker loop — idle at the top of its loop, running a
handler for a claimed Job, or exited. -/
inductive WStatus where
  | idle : WStatus
  | running : Nat → WStatus
  | stopped : WStatus
deriving DecidableEq

/-- Modelled from the spec (§4.4, §9): the pool's shared state — every
Worker's status, the cooperative stop flag that `Shutdown` sets, and
whether `Shutdown` has returned. -/
structure PoolState where
  workers : List WStatus
  stopFlag : Bool
  shutdownReturned : Bool
deriving DecidableEq

inductive PoolEvent where
  | claim : Nat → Nat → PoolEvent
  | finish : Nat → PoolEvent
  | observeStop : Nat → PoolEvent
  | shutdownSignal : PoolEvent
  | shutdownReturn : PoolEvent
deriving DecidableEq

/-- Modelled from the spec (§4.4, §9): the atomic transitions of the pool —
a Worker claims a new Job only when idle with the stop flag unset (the flag
is checked at the top of the loop, before claiming); a running handler can
only finish, never be killed; an idle Worker that observes the stop flag
exits its loop; `Shutdown` sets the stop flag and returns only once every
Worker loop has exited. -/
inductive PoolStep : PoolState → PoolEvent → PoolState → Prop where
  | claim (s : PoolState) (w jid : Nat)
      (hidle : s.workers.get? w = some WStatus.idle)
      (hflag : s.stopFlag = false) :
      PoolStep s (PoolEvent.claim w jid)
        ⟨s.workers.set w (WStatus.running jid), s.stopFlag, s.shutdownReturned⟩
  | finish (s : PoolState) (w jid : Nat)
      (hrun : s.workers.get? w = some (WStatus.running jid)) :
      PoolStep s (PoolEvent.finish w)
        ⟨s.workers.set w WStatus.idle, s.stopFlag, s.shutdownReturned⟩
  | observeStop (s : PoolState) (w : Nat)
      (hidle : s.workers.get? w = some WStatus.idle)
      (hflag : s.stopFlag = true) :
      PoolStep s (PoolEvent.observeStop w)
        ⟨s.workers.set w WStatus.stopped, s.stopFlag, s.shutdownReturned⟩
  | shutdownSignal (s : PoolState) :
      PoolStep s PoolEvent.shutdownSignal ⟨s.workers, true, s.shutdownReturned⟩
  | shutdownReturn (s : PoolState)
      (hflag : s.stopFlag = true)
      (hall : ∀ st ∈ s.workers, st = WStatus.stopped) :
      PoolStep s PoolEvent.shutdownReturn ⟨s.workers, s.stopFlag, true⟩

/-- Traces: the events `es` take the pool from `s` to `s'`. -/
inductive PoolReaches : PoolState → List PoolEvent → PoolState → Prop where
  | nil (s : PoolState) : PoolReaches s [] s
  | cons {s s' s'' : PoolState} {e : PoolEvent} {es : List PoolEvent}
      (h1 : PoolStep s e s') (h2 : PoolReaches s' es s'') :
      PoolReaches s (e :: es) s''

/-- Modelled from the spec (§4.4): a freshly started pool of `n` Workers. -/
def initPool (n : Nat) : PoolState :=
  ⟨List.replicate n WStatus.idle, false, false⟩

/-- Every Worker loop has exited. -/
def allStopped (s : PoolState) : Prop :=
  ∀ st ∈ s.workers, st = WStatus.stopped

theorem no_claim_from_returned {s s' : PoolState} {e : PoolEvent}
    (h : PoolStep s e s') (hret : s.shutdownReturned = true)
    (hstop : allStopped s) :
    (∀ w jid, e ≠ PoolEvent.claim w jid) ∧
      s'.shutdownReturned = true ∧ allStopped s' := by
  cases h with
  | claim w jid hidle hflag =>
    exact absurd (hstop _ (List.get?_mem hidle)) (by simp)
  | finish w jid hrun =>
    exact absurd (hstop _ (List.get?_mem hrun)) (by simp)
  | observeStop w hidle hflag =>
    exact absurd (hstop _ (List.get?_mem hidle)) (by simp)
  | shutdownSignal => exact ⟨by simp, hret, hstop⟩
  | shutdownReturn hflag hall => exact ⟨by simp, rfl, hall⟩

theorem reaches_no_claim {es : List PoolEvent} :
    ∀ {s sf : PoolState}, PoolReaches s es sf →
      s.shutdownReturned = true → allStopped s →
      ∀ w jid, PoolEvent.claim w jid ∉ es := by
  induction es with
  | nil => intro s sf _ _ _ w jid; simp
  | cons e es ih =>
    intro s sf h hret hstop w jid
    cases h with
    | cons h1 h2 =>
      obtain ⟨hne, hret', hstop'⟩ := no_claim_from_returned h1 hret hstop
      intro hmem
      rcases List.mem_cons.mp hmem with heq | hm
      · exact hne w jid heq.symm
      · exact ih h2 hret' hstop' w jid hm

theorem reaches_append {l1 : List PoolEvent} :
    ∀ {s sf : PoolState} {l2 : List PoolEvent},
      PoolReaches s (l1 ++ l2) sf →
      ∃ smid, PoolReaches s l1 smid ∧ PoolReaches smid l2 sf := by
  induction l1 with
  | nil => intro s sf l2 h; exact ⟨s, PoolReaches.nil s, h⟩
  | cons e l1 ih =>
    intro s sf l2 h
    cases h with
    | cons h1 h2 =>
      obtain ⟨smid, ha, hb⟩ := ih h2
      exact ⟨smid, PoolReaches.cons h1 ha, hb⟩

theorem get?_set_ne {α : Type} (l : List α) (a : α) :
    ∀ (n m : Nat), n ≠ m → (l.set n a).get? m = l.get? m := by
  induction l with
  | nil => intro n m _; simp
  | cons x xs ih =>
    intro n m hnm
    cases n with
    | zero =>
      cases m with
      | zero => exact absurd rfl hnm
      | succ m => simp [List.set, List.get?]
    | succ n =>
      cases m with
      | zero => simp [List.set, List.get?]
      | succ m =>
        simp only [List.set, List.get?]
        exact ih n m (by omega)

/-- C4: in any pool execution whose trace contains the `Shutdown` return,
(a) at the instant `Shutdown` returns every Worker loop has exited — so
every in-flight handler invocation finished before `Shutdown` returned;
(b) no claim event occurs after `Shutdown` returns; and (c) no transition
ever hard-kills a running handler: a Worker running a handler stays
running it except through that Worker's own finish event. -/
theorem Shutdown_spec (n : Nat) (es1 es2 : List PoolEvent) (sf : PoolState)
    (h : PoolReaches (initPool n)
      (es1 ++ PoolEvent.shutdownReturn :: es2) sf) :
    (∃ smid : PoolState,
      PoolReaches (initPool n) es1 smid ∧ allStopped smid) ∧
    (∀ w jid, PoolEvent.claim w jid ∉ es2) ∧
    (∀ (s s' : PoolState) (e : PoolEvent) (w jid : Nat),
      PoolStep s e s' →
      s.workers.get? w = some (WStatus.running jid) →
      s'.workers.get? w = some (WStatus.running jid) ∨
        e = PoolEvent.finish w) := by
  obtain ⟨smid, h1, h2⟩ := reaches_append h
  cases h2 with
  | cons hstep h3 =>
    cases hstep with
    | shutdownReturn hflag hall =>
      refine ⟨⟨smid, h1, hall⟩, ?_, ?_⟩
      · intro w jid
        exact reaches_no_claim h3 rfl hall w jid
      · intro s s' e w jid hst hrun
        cases hst with
        | claim w' jid' hidle hflag2 =>
          by_cases hw : w' = w
          · subst hw
            rw [hidle] at hrun
            cases hrun
          · left
            show (s.workers.set w' (WStatus.running jid')).get? w =
              some (WStatus.running jid)
            rw [get?_set_ne s.workers (WStatus.running jid') w' w hw]
            exact hrun
        | finish w' jid' hrun2 =>
          by_cases hw : w' = w
          · subst hw
            right
            rfl
          · left
            show (s.workers.set w' WStatus.idle).get? w =
              some (WStatus.running jid)
            rw [get?_set_ne s.workers WStatus.idle w' w hw]
            exact hrun
        | observeStop w' hidle hflag2 =>
          by_cases hw : w' = w
          · subst hw
            rw [hidle] at hrun
            cases hrun
          · left
            show (s.workers.set w' WStatus.stopped).get? w =
              some (WStatus.running jid)
            rw [get?_set_ne s.workers WStatus.stopped w' w hw]
            exact hrun
        | shutdownSignal => exact Or.inl hrun
        | shutdownReturn hflag2 hall2 => exact Or.inl hrun

theorem Shutdown_spec_witness :
    PoolEvent.claim 0 9 ∉ ([] : List PoolEvent) ∧
    ((⟨[WStatus.idle], false, false⟩ : PoolState).workers.get? 0 =
        some (WStatus.running 5) ∨
      PoolEvent.finish 0 = PoolEvent.finish 0) := by
  have htr : PoolReaches (initPool 1)
      ([PoolEvent.claim 0 5, PoolEvent.finish 0, PoolEvent.shutdownSignal,
        PoolEvent.observeStop 0] ++ PoolEvent.shutdownReturn :: [])
      ⟨[WStatus.stopped], true, true⟩ := by
    refine PoolReaches.cons (PoolStep.claim (initPool 1) 0 5 rfl rfl) ?_
    refine PoolReaches.cons (PoolStep.finish _ 0 5 rfl) ?_
    refine PoolReaches.cons (PoolStep.shutdownSignal _) ?_
    refine PoolReaches.cons (PoolStep.observeStop _ 0 rfl rfl) ?_
    exact PoolReaches.cons (PoolStep.shutdownReturn _ rfl (by decide))
      (PoolReaches.nil _)
  obtain ⟨hdrain, hnoclaim, hnokill⟩ := Shutdown_spec 1
    [PoolEvent.claim 0 5, PoolEvent.finish 0, PoolEvent.shutdownSignal,
      PoolEvent.observeStop 0] [] ⟨[WStatus.stopped], true, true⟩ htr
  refine ⟨hnoclaim 0 9, ?_⟩
  exact hnokill ⟨[WStatus.running 5], false, false⟩
    ⟨[WStatus.idle], false, false⟩ (PoolEvent.finish 0) 0 5
    (PoolStep.finish ⟨[WStatus.running 5], false, false⟩ 0 5 rfl) rfl

/-- Modelled from the spec (§6) and doc.go ("Prepared Statements": que
relies on prepared statements, and "as of now these have to be initialized
manually on your connection pool", e.g. via `AfterConnect`): a pooled
connection, carrying the names of the statements prepared on it. -/
structure Conn where
  prepared : List String
deriving DecidableEq

/-- A connection as freshly opened by the pool, before any hook has run:
no que statement is prepared on it. -/
def newConn : Conn := ⟨[]⟩

/-- Modelled from the spec (§6 store adapter operations): the SQL prepared
statements the engine executes by name on its leased connection. -/
def requiredStatements : List String :=
  ["lock_job", "insert_job", "delete_job", "set_error", "reschedule_job",
    "unlock_job"]

/-- Modelled from doc.go (`que.PrepareStatements`, installed by the caller
as the pool's `AfterConnect` hook): prepare every engine statement on the
given connection. -/
def PrepareStatements (c : Conn) : Conn :=
  ⟨requiredStatements ++ c.prepared⟩

/-- Executing a named prepared statement on a connection: the statement
must have been prepared on that same connection, and execution never
installs statements as a side effect. -/
def runStatement (c : Conn) (name : String) : Conn × Except String Unit :=
  if name ∈ c.prepared then (c, Except.ok ())
  else (c, Except.error ("prepared statement " ++ name ++ " does not exist"))

/-- Modelled from the spec (§4.2): `Claim` executes the lock statement on
the connection it leased. -/
def ClaimOnConn (c : Conn) (s : Store) (now : Nat) :
    Conn × Except String (Option (Job × Store)) :=
  match runStatement c "lock_job" with
  | (c', Except.ok _) => (c', Except.ok (Claim s now))
  | (c', Except.error e) => (c', Except.error e)

/-- Modelled from the spec (§4.5): `Enqueue` executes the insert statement
on the connection it leased. -/
def EnqueueOnConn (c : Conn) (s : Store) (now : Nat) (j : Job) :
    Conn × Except String (Store × Except String Nat) :=
  match runStatement c "insert_job" with
  | (c', Except.ok _) => (c', Except.ok (Enqueue s now j))
  | (c', Except.error e) => (c', Except.error e)

/-- C10: the engine's prepared statements are not installed automatically —
on a freshly opened connection every engine statement, hence the Client
and WorkerPool operations that execute one, fails with a
missing-prepared-statement error, and no engine operation installs the
statements as a side effect (the connection's prepared set is unchanged);
once the caller has run `PrepareStatements` on that connection (e.g. as
the pool's `AfterConnect` hook), every engine statement executes, and the
on-connection `Claim` and `Enqueue` behave as `Claim` and `Enqueue`. -/
theorem PrepareStatements_spec (c : Conn) (s : Store) (now : Nat) (j : Job)
    (name : String) (hname : name ∈ requiredStatements) :
    ((runStatement newConn name).2 =
        Except.error ("prepared statement " ++ name ++ " does not exist") ∧
      (runStatement newConn name).1 = newConn) ∧
    runStatement (PrepareStatements c) name =
      (PrepareStatements c, Except.ok ()) ∧
    ((ClaimOnConn newConn s now).1 = newConn ∧
      (ClaimOnConn newConn s now).2 = Except.error
        ("prepared statement " ++ "lock_job" ++ " does not exist")) ∧
    ClaimOnConn (PrepareStatements c) s now =
      (PrepareStatements c, Except.ok (Claim s now)) ∧
    ((EnqueueOnConn newConn s now j).1 = newConn ∧
      (EnqueueOnConn newConn s now j).2 = Except.error
        ("prepared statement " ++ "insert_job" ++ " does not exist")) ∧
    EnqueueOnConn (PrepareStatements c) s now j =
      (PrepareStatements c, Except.ok (Enqueue s now j)) := by
  have hmem : name ∈ (PrepareStatements c).prepared :=
    List.mem_append_left _ hname
  have hlock : ("lock_job" : String) ∈ (PrepareStatements c).prepared :=
    List.mem_append_left _ (by simp [requiredStatements])
  have hins : ("insert_job" : String) ∈ (PrepareStatements c).prepared :=
    List.mem_append_left _ (by simp [requiredStatements])
  have hrun : runStatement (PrepareStatements c) name =
      (PrepareStatements c, Except.ok ()) := by
    unfold runStatement
    rw [if_pos hmem]
  have hrunLock : runStatement (PrepareStatements c) "lock_job" =
      (PrepareStatements c, Except.ok ()) := by
    unfold runStatement
    rw [if_pos hlock]
  have hrunIns : runStatement (PrepareStatements c) "insert_job" =
      (PrepareStatements c, Except.ok ()) := by
    unfold runStatement
    rw [if_pos hins]
  refine ⟨⟨?_, rfl⟩, hrun, ⟨rfl, ?_⟩, ?_, ⟨rfl, ?_⟩, ?_⟩
  · simp [runStatement, newConn]
  · simp [ClaimOnConn, runStatement, newConn]
  · simp only [ClaimOnConn, hrunLock]
  · simp [EnqueueOnConn, runStatement, newConn]
  · simp only [EnqueueOnConn, hrunIns]

theorem PrepareStatements_spec_witness :
    (runStatement newConn "insert_job").2 = Except.error
      ("prepared statement " ++ "insert_job" ++ " does not exist") ∧
    runStatement (PrepareStatements newConn) "insert_job" =
      (PrepareStatements newConn, Except.ok ()) ∧
    EnqueueOnConn (PrepareStatements newConn) sAB 40 jE =
      (PrepareStatements newConn, Except.ok (Enqueue sAB 40 jE)) := by
  obtain ⟨⟨h1, h2⟩, h3, h4, h5, h6, h7⟩ :=
    PrepareStatements_spec newConn sAB 40 jE "insert_job"
      (by simp [requiredStatements])
  exact ⟨h1, h3, h7⟩

end Que
